import Mathlib

/-!
# Verification of the local mail-ingestion engine (`server_test.py`)

Shallow embedding of the SMTP `EmailHandler.handle_DATA` pipeline, the
SQLite-backed message record store (`init_db` / `save_email_to_db`), the
attachment file store, and the inbox read path (`inbox`), together with
proofs of the specification claims about them.

Python library calls (`bytes.decode`, `json.dumps` / `json.loads`,
`email.message_from_bytes`, filesystem writes) are modelled by executable
Lean functions that reproduce the behaviour the program relies on.
-/

namespace MailServer

/-- A byte string: each entry is a byte value `< 256`. -/
abbrev Bytes := List Nat

/-- The Unicode replacement character U+FFFD produced by lossy decoding
(`errors="replace"`). -/
def replacementChar : Char := Char.ofNat 0xFFFD

/-- Character sets as they reach `bytes.decode` via `get_content_charset()`:
a handful of registered codecs, plus unregistered names for which Python's
codec lookup raises `LookupError`. -/
inductive Charset where
  | usAscii : Charset
  | utf8 : Charset
  | latin1 : Charset
  | unregistered (name : String) : Charset
deriving DecidableEq, Repr

/-- `bytes.decode("ascii", errors="replace")`: bytes below `0x80` map to the
corresponding character, all others to U+FFFD. -/
def asciiDecodeReplace (b : Bytes) : List Char :=
  b.map (fun x => if x < 0x80 then Char.ofNat x else replacementChar)

/-- `bytes.decode("latin-1", errors="replace")`: every byte maps to the code
point of the same value. -/
def latin1Decode (b : Bytes) : List Char :=
  b.map (fun x => Char.ofNat (x % 256))

/-- Is `x` a UTF-8 continuation byte (`0x80 ≤ x ≤ 0xBF`)? -/
def isCont (x : Nat) : Bool := 0x80 ≤ x && x ≤ 0xBF

/-- `bytes.decode("utf-8", errors="replace")`, driven by a fuel counter (one
unit per emitted character; `fuel = length` always suffices): decode
well-formed UTF-8 sequences to their scalar values; at an ill-formed position
emit U+FFFD and consume one byte. -/
def utf8DecodeReplaceAux : Nat → Bytes → List Char
  | 0, _ => []
  | _, [] => []
  | fuel + 1, b0 :: rest =>
    if b0 < 0x80 then
      Char.ofNat b0 :: utf8DecodeReplaceAux fuel rest
    else
      match rest with
      | b1 :: rest1 =>
        if 0xC2 ≤ b0 && b0 ≤ 0xDF && isCont b1 then
          Char.ofNat ((b0 - 0xC0) * 0x40 + (b1 - 0x80)) :: utf8DecodeReplaceAux fuel rest1
        else
          match rest1 with
          | b2 :: rest2 =>
            if (b0 == 0xE0 && 0xA0 ≤ b1 && b1 ≤ 0xBF && isCont b2) ||
               (0xE1 ≤ b0 && b0 ≤ 0xEC && isCont b1 && isCont b2) ||
               (b0 == 0xED && 0x80 ≤ b1 && b1 ≤ 0x9F && isCont b2) ||
               (0xEE ≤ b0 && b0 ≤ 0xEF && isCont b1 && isCont b2) then
              Char.ofNat ((b0 - 0xE0) * 0x1000 + (b1 - 0x80) * 0x40 + (b2 - 0x80)) ::
                utf8DecodeReplaceAux fuel rest2
            else
              match rest2 with
              | b3 :: rest3 =>
                if (b0 == 0xF0 && 0x90 ≤ b1 && b1 ≤ 0xBF && isCont b2 && isCont b3) ||
                   (0xF1 ≤ b0 && b0 ≤ 0xF3 && isCont b1 && isCont b2 && isCont b3) ||
                   (b0 == 0xF4 && 0x80 ≤ b1 && b1 ≤ 0x8F && isCont b2 && isCont b3) then
                  Char.ofNat ((b0 - 0xF0) * 0x40000 + (b1 - 0x80) * 0x1000 +
                      (b2 - 0x80) * 0x40 + (b3 - 0x80)) :: utf8DecodeReplaceAux fuel rest3
                else
                  replacementChar :: utf8DecodeReplaceAux fuel rest
              | [] => replacementChar :: utf8DecodeReplaceAux fuel rest
          | [] => replacementChar :: utf8DecodeReplaceAux fuel rest
      | [] => [replacementChar]

/-- `bytes.decode("utf-8", errors="replace")`. -/
def utf8DecodeReplace (b : Bytes) : List Char :=
  utf8DecodeReplaceAux b.length b

/-- `bytes.decode(charset, errors="replace")`.  Registered codecs decode
losslessly or with replacement and never raise; an unregistered charset name
makes the call raise `LookupError`, modelled as `Except.error ()`. -/
def bytesDecodeReplace (cs : Charset) (b : Bytes) : Except Unit String :=
  match cs with
  | .usAscii => .ok ⟨asciiDecodeReplace b⟩
  | .utf8 => .ok ⟨utf8DecodeReplace b⟩
  | .latin1 => .ok ⟨latin1Decode b⟩
  | .unregistered _ => .error ()

/-- Lowercase hexadecimal digit for `d < 16`. -/
def hexDigitChar (d : Nat) : Char :=
  if d < 10 then Char.ofNat (48 + d) else Char.ofNat (87 + d)

/-- Python `repr` of one byte inside a `bytes` literal: printable ASCII other
than backslash and the quote prints as itself, `\t`, `\n`, `\r`, `\\`, `\'`
use their short escapes, everything else prints `\xHH`. -/
def pyByteRepr (x : Nat) : List Char :=
  if x = 92 then ['\\', '\\']
  else if x = 39 then ['\\', '\x27']
  else if x = 9 then ['\\', 't']
  else if x = 10 then ['\\', 'n']
  else if x = 13 then ['\\', 'r']
  else if 0x20 ≤ x && x < 0x7F then [Char.ofNat x]
  else ['\\', 'x', hexDigitChar (x / 16 % 16), hexDigitChar (x % 16)]

/-- Python `str(payload)` for a `bytes` payload: the literal `b'...'`. -/
def pyBytesStr (b : Bytes) : String :=
  ⟨'b' :: '\x27' :: (b.flatMap pyByteRepr) ++ ['\x27']⟩

/-! ## JSON serialization of the attachments column

`save_email_to_db` stores `json.dumps(attachments)` (a list of path strings)
and `inbox` recovers it with `json.loads`.  We model both library functions
for string lists: `dumps` with its defaults (`ensure_ascii=True`, separator
`", "`), `loads` as a strict parser of a JSON array of strings. -/

/-- Four lowercase hex digits of `n % 0x10000`, most significant first. -/
def hex4 (n : Nat) : List Char :=
  [hexDigitChar (n / 4096 % 16), hexDigitChar (n / 256 % 16),
   hexDigitChar (n / 16 % 16), hexDigitChar (n % 16)]

/-- `json.dumps` escaping of one character (`ensure_ascii=True`): the two
JSON metacharacters and the five short escapes use backslash forms, other
printable ASCII passes through, and every other code point becomes `\uXXXX`
(a surrogate pair for code points above U+FFFF). -/
def jsonEscapeChar (c : Char) : List Char :=
  if c = '"' then ['\\', '"']
  else if c = '\\' then ['\\', '\\']
  else if c.toNat = 8 then ['\\', 'b']
  else if c.toNat = 9 then ['\\', 't']
  else if c.toNat = 10 then ['\\', 'n']
  else if c.toNat = 12 then ['\\', 'f']
  else if c.toNat = 13 then ['\\', 'r']
  else if 0x20 ≤ c.toNat ∧ c.toNat < 0x7F then [c]
  else if c.toNat < 0x10000 then '\\' :: 'u' :: hex4 c.toNat
  else
    ('\\' :: 'u' :: hex4 (0xD800 + (c.toNat - 0x10000) / 0x400)) ++
    ('\\' :: 'u' :: hex4 (0xDC00 + (c.toNat - 0x10000) % 0x400))

/-- Escape every character of a string body. -/
def jsonEscapeChars (cs : List Char) : List Char := cs.flatMap jsonEscapeChar

/-- A JSON string literal for `s`: quote, escaped body, quote. -/
def jsonEncodeChars (s : String) : List Char :=
  '"' :: jsonEscapeChars s.data ++ ['"']

/-- Body of the dumped array: elements joined by `", "` (the default
separator of `json.dumps`). -/
def jsonArrayBody : List String → List Char
  | [] => []
  | x :: xs => jsonEncodeChars x ++ xs.flatMap (fun s => ',' :: ' ' :: jsonEncodeChars s)

/-- `json.dumps` on a list of strings. -/
def jsonDumps (l : List String) : String :=
  ⟨'[' :: jsonArrayBody l ++ [']']⟩

/-- JSON whitespace. -/
def isJsonWs (c : Char) : Bool :=
  c = ' ' || c = '\t' || c = '\n' || c = '\r'

/-- Drop leading JSON whitespace. -/
def skipWs : List Char → List Char
  | [] => []
  | c :: cs => if isJsonWs c then skipWs cs else c :: cs

/-- Value of a hexadecimal digit character. -/
def hexVal (c : Char) : Option Nat :=
  if 48 ≤ c.toNat ∧ c.toNat ≤ 57 then some (c.toNat - 48)
  else if 97 ≤ c.toNat ∧ c.toNat ≤ 102 then some (c.toNat - 87)
  else if 65 ≤ c.toNat ∧ c.toNat ≤ 70 then some (c.toNat - 55)
  else none

/-- Parse exactly four hex digits. -/
def parseHex4 : List Char → Option (Nat × List Char)
  | c1 :: c2 :: c3 :: c4 :: rest =>
    match hexVal c1, hexVal c2, hexVal c3, hexVal c4 with
    | some d1, some d2, some d3, some d4 =>
      some (d1 * 4096 + d2 * 256 + d3 * 16 + d4, rest)
    | _, _, _, _ => none
  | _ => none

/-- The single-character JSON escapes accepted after a backslash. -/
def jsonUnescape (e : Char) : Option Char :=
  if e = '"' then some '"'
  else if e = '\\' then some '\\'
  else if e = '/' then some '/'
  else if e = 'b' then some (Char.ofNat 8)
  else if e = 'f' then some (Char.ofNat 12)
  else if e = 'n' then some (Char.ofNat 10)
  else if e = 'r' then some (Char.ofNat 13)
  else if e = 't' then some (Char.ofNat 9)
  else none

/-- Parse the four hex digits following a `\u` escape, consuming a paired
low-surrogate escape when the first value is a high surrogate (a lone
surrogate has no scalar-value representation and is rejected). -/
def parseUEscape (r : List Char) : Option (Char × List Char) :=
  match parseHex4 r with
  | none => none
  | some (n, r1) =>
    if n < 0xD800 || 0xE000 ≤ n then some (Char.ofNat n, r1)
    else if n < 0xDC00 then
      match r1 with
      | b :: u :: r2 =>
        if b = '\\' && u = 'u' then
          match parseHex4 r2 with
          | none => none
          | some (m, r3) =>
            if 0xDC00 ≤ m && m < 0xE000 then
              some (Char.ofNat (0x10000 + (n - 0xD800) * 0x400 + (m - 0xDC00)), r3)
            else none
        else none
      | _ => none
    else none

/-- Parse the body of a JSON string literal (the opening quote already
consumed) up to its closing quote, handling escapes and surrogate pairs.
`fuel` bounds the number of produced characters (the input length always
suffices). -/
def parseJsonStringAux : Nat → List Char → Option (List Char × List Char)
  | _, [] => none
  | fuel, c :: rest =>
    if c = '"' then some ([], rest)
    else
      match fuel with
      | 0 => none
      | fuel + 1 =>
        if c = '\\' then
          match rest with
          | [] => none
          | e :: r =>
            if e = 'u' then
              match parseUEscape r with
              | none => none
              | some (u, r1) => (parseJsonStringAux fuel r1).map (fun p => (u :: p.1, p.2))
            else
              match jsonUnescape e with
              | none => none
              | some u => (parseJsonStringAux fuel r).map (fun p => (u :: p.1, p.2))
        else if c.toNat < 0x20 then none
        else (parseJsonStringAux fuel rest).map (fun p => (c :: p.1, p.2))

/-- Parse the elements of a non-empty JSON array of strings, positioned at
the start of an element, up to and including the closing bracket. -/
def parseJsonElemsAux : Nat → List Char → Option (List String × List Char)
  | _, [] => none
  | fuel, c :: r =>
    if c = '"' then
      match parseJsonStringAux r.length r with
      | none => none
      | some (cs, r1) =>
        match skipWs r1 with
        | [] => none
        | d :: r2 =>
          if d = ',' then
            match fuel with
            | 0 => none
            | fuel + 1 =>
              (parseJsonElemsAux fuel (skipWs r2)).map (fun p => (String.mk cs :: p.1, p.2))
          else if d = ']' then some ([String.mk cs], r2)
          else none
    else none

/-- `json.loads` specialized to a JSON array of strings, as consumed by the
inbox view's attachments column. -/
def jsonLoads (s : String) : Option (List String) :=
  match skipWs s.data with
  | [] => none
  | c :: r =>
    if c = '[' then
      match skipWs r with
      | [] => none
      | d :: r1 =>
        if d = ']' then (if skipWs r1 = [] then some [] else none)
        else
          match parseJsonElemsAux (d :: r1).length (d :: r1) with
          | some (xs, rem) => if skipWs rem = [] then some xs else none
          | none => none
    else none

/-! ## MIME message model

The view of `email.message.Message` objects used by `handle_DATA`: each
part carries the headers the handler reads (`Content-Disposition`, content
maintype, filename, charset) and either a byte payload (leaf) or a list of
subparts (multipart).  `get_payload(decode=True)` yields the
transfer-decoded bytes of a leaf and `None` on a multipart. -/

/-- The header data of one part, as read by the handler:
`part.get("Content-Disposition")`, `part.get_content_maintype()`,
`part.get_filename()`, `part.get_content_charset()`. -/
structure PartData where
  contentDisposition : Option String
  maintype : String
  filename : Option String
  charset : Option Charset
deriving DecidableEq, Repr

/-- A node of the MIME tree: a leaf with its decoded payload bytes (possibly
`None`), or a multipart container with children. -/
inductive MimePart where
  | leaf (d : PartData) (payload : Option Bytes)
  | multi (d : PartData) (children : List MimePart)
deriving Repr

/-- `Message.is_multipart()`: the payload is a list of subparts. -/
def MimePart.isMultipart : MimePart → Bool
  | .leaf .. => false
  | .multi .. => true

/-- The header data of a part. -/
def MimePart.partData : MimePart → PartData
  | .leaf d _ => d
  | .multi d _ => d

/-- `get_payload(decode=True)`: the transfer-decoded bytes of a leaf part;
`None` on a multipart container. -/
def MimePart.getPayloadDecode : MimePart → Option Bytes
  | .leaf _ b => b
  | .multi _ _ => none

mutual

/-- `Message.walk()`: the part itself followed by all subparts, depth-first
in document order. -/
def MimePart.walk : MimePart → List MimePart
  | .leaf d b => [.leaf d b]
  | .multi d cs => .multi d cs :: walkList cs

/-- `walk` over a list of sibling parts, concatenated in order. -/
def walkList : List MimePart → List MimePart
  | [] => []
  | p :: ps => p.walk ++ walkList ps

end

/-- A parsed message: the four headers `handle_DATA` reads from the
top-level message, plus the MIME content tree. -/
structure EmailMsg where
  fromH : Option String
  toH : Option String
  subjectH : Option String
  dateH : Option String
  root : MimePart

/-- Result of `email.message_from_bytes(envelope.content)`: the raw DATA
payload is represented by its parse outcome; `malformed` stands for raw
bytes on which the library call raises, which `handle_DATA` catches. -/
inductive RawContent where
  | parsed (msg : EmailMsg)
  | malformed

/-- The aiosmtpd envelope: protocol-level sender and recipients plus the
DATA payload. -/
structure Envelope where
  mailFrom : String
  rcptTos : List String
  content : RawContent

/-! ## Filesystem, clock and failure model -/

/-- The attachment directory on disk: an association list from path to
bytes; later writes to the same path shadow earlier entries. -/
abbrev FileSys := List (String × Bytes)

/-- Read a file (the most recent write to the path wins). -/
def fsRead (fs : FileSys) (p : String) : Option Bytes :=
  match fs.find? (fun e => e.1 == p) with
  | some e => some e.2
  | none => none

/-- `open(path, "wb")` followed by a full write. -/
def fsWrite (fs : FileSys) (p : String) (b : Bytes) : FileSys :=
  (p, b) :: fs

/-- A wall-clock instant, as read by `time.strftime`. -/
structure DateTime where
  year : Nat
  month : Nat
  day : Nat
  hour : Nat
  minute : Nat
  second : Nat
deriving DecidableEq, Repr

/-- Zero-pad to two digits (`%m`, `%d`, `%H`, `%M`, `%S`). -/
def pad2 (n : Nat) : String :=
  if n < 10 then "0" ++ toString n else toString n

/-- Zero-pad to four digits (`%Y`). -/
def pad4 (n : Nat) : String :=
  if n < 10 then "000" ++ toString n
  else if n < 100 then "00" ++ toString n
  else if n < 1000 then "0" ++ toString n
  else toString n

/-- `time.strftime("%Y-%m-%d %H:%M:%S")` at instant `t`. -/
def strftimeYmdHMS (t : DateTime) : String :=
  pad4 t.year ++ "-" ++ pad2 t.month ++ "-" ++ pad2 t.day ++ " " ++
    pad2 t.hour ++ ":" ++ pad2 t.minute ++ ":" ++ pad2 t.second

/-- Uncaught Python exceptions that can escape `handle_DATA`: an OS error
from `open`/`write`, the `TypeError` from `f.write(None)`, or a `sqlite3`
error from the `INSERT`. -/
inductive PyExn where
  | osError (path : String)
  | typeError
  | dbError
deriving DecidableEq, Repr

/-- Environment of one `handle_DATA` call: the wall-clock reading used by
`time.strftime`, and which storage operations succeed (a failing
`open`/`write` or `INSERT` raises in Python). -/
structure Env where
  now : DateTime
  fileWriteOk : String → Bool
  dbInsertOk : Bool

/-! ## Message record store (SQLite `emails` table) -/

/-- One row of the `emails` table. -/
structure EmailRow where
  id : Nat
  sender : String
  recipients : String
  subject : String
  body : String
  date : String
  attachments : String
deriving DecidableEq, Repr

/-- The `emails` table: `nextId` is the AUTOINCREMENT counter (the first
row gets id 1) and `rows` are the stored rows in insertion order. -/
structure EmailDb where
  nextId : Nat
  rows : List EmailRow
deriving DecidableEq, Repr

/-- `init_db()`: a fresh empty table. -/
def init_db : EmailDb :=
  { nextId := 1, rows := [] }

/-- `save_email_to_db(...)`: serialize the attachment paths with
`json.dumps` and `INSERT` one row, its id assigned by AUTOINCREMENT; a
failing insert raises `sqlite3`'s error and stores nothing. -/
def save_email_to_db (env : Env) (db : EmailDb) (sender recipients subject body date_str : String)
    (attachments : List String) : Except PyExn EmailDb :=
  if env.dbInsertOk then
    .ok { nextId := db.nextId + 1,
          rows := db.rows ++ [{ id := db.nextId, sender := sender, recipients := recipients,
                                subject := subject, body := body, date := date_str,
                                attachments := jsonDumps attachments }] }
  else .error .dbError

/-- Insert into a list kept in descending-id order. -/
def insertDescById (r : EmailRow) : List EmailRow → List EmailRow
  | [] => [r]
  | x :: xs => if x.id < r.id then r :: x :: xs else x :: insertDescById r xs

/-- `SELECT ... FROM emails ORDER BY id DESC`, as issued by `inbox()`. -/
def listAll (db : EmailDb) : List EmailRow :=
  db.rows.foldr insertDescById []

/-- Invariant of the `emails` table maintained by AUTOINCREMENT: ids are
strictly increasing in insertion order and below the counter. -/
def dbWF (db : EmailDb) : Prop :=
  db.rows.Pairwise (fun a b => a.id < b.id) ∧ ∀ r ∈ db.rows, r.id < db.nextId

/-! ## The session handler (`EmailHandler.handle_DATA`) -/

/-- Does `needle` occur as a contiguous sublist of the argument? -/
def listContainsSub (needle : List Char) : List Char → Bool
  | [] => needle.isEmpty
  | c :: cs => needle.isPrefixOf (c :: cs) || listContainsSub needle cs

/-- Python `needle in haystack` on strings: substring containment. -/
def strContains (haystack needle : String) : Bool :=
  listContainsSub needle.data haystack.data

/-- The constant `ATTACHMENTS_DIR`. -/
def ATTACHMENTS_DIR : String := "attachments"

/-- `os.path.join` (POSIX): an absolute second component discards the
first. -/
def osPathJoin (dir name : String) : String :=
  if name.startsWith "/" then name else dir ++ "/" ++ name

/-- Mutable state accumulated by the `for part in msg.walk()` loop:
`body`, `attachments`, and the attachment directory being written. -/
structure WalkAcc where
  body : String
  attachments : List String
  fs : FileSys

/-- One iteration of the walk loop of `handle_DATA`: skip containers, save
parts whose content-disposition contains "attachment" and that declare a
filename, collect body text from the rest.  An exception carries the
filesystem as already mutated (`open(..., "wb")` truncates before
`f.write(None)` raises). -/
def processPart (env : Env) (acc : WalkAcc) (p : MimePart) : Except (PyExn × FileSys) WalkAcc :=
  let content_disposition := (p.partData.contentDisposition).getD ""
  if p.partData.maintype == "multipart" then .ok acc
  else if strContains content_disposition "attachment" then
    match p.partData.filename with
    | some filename =>
      let filepath := osPathJoin ATTACHMENTS_DIR filename
      if env.fileWriteOk filepath then
        match p.getPayloadDecode with
        | some payload =>
          .ok { acc with fs := fsWrite acc.fs filepath payload,
                         attachments := acc.attachments ++ [filepath] }
        | none => .error (.typeError, fsWrite acc.fs filepath [])
      else .error (.osError filepath, acc.fs)
    | none => .ok acc
  else
    match p.getPayloadDecode with
    | none => .ok acc
    | some payload =>
      if payload.isEmpty then .ok acc
      else
        match bytesDecodeReplace ((p.partData.charset).getD .utf8) payload with
        | .ok s => .ok { acc with body := acc.body ++ s }
        | .error _ => .ok { acc with body := acc.body ++ pyBytesStr payload }

/-- The walk loop: iterate `processPart` until done or an exception
escapes (returned with the filesystem state at that point). -/
def processParts (env : Env) : WalkAcc → List MimePart → WalkAcc × Option PyExn
  | acc, [] => (acc, none)
  | acc, p :: ps =>
    match processPart env acc p with
    | .ok acc' => processParts env acc' ps
    | .error (e, fs') => ({ acc with fs := fs' }, some e)

/-- `EmailHandler.handle_DATA`: parse the DATA payload (returning
`550 Error` when `email.message_from_bytes` raises), extract the headers
with their defaults, collect body and attachments (walking the tree when
multipart, decoding the single payload otherwise), persist the row, and
reply `250`.  Returns the reply or the uncaught exception, together with
the resulting filesystem and database. -/
def handle_DATA (env : Env) (envelope : Envelope) (fs : FileSys) (db : EmailDb) :
    Except PyExn String × FileSys × EmailDb :=
  match envelope.content with
  | .malformed => (.ok "550 Error", fs, db)
  | .parsed msg =>
    let sender := msg.fromH.getD envelope.mailFrom
    let recipients := msg.toH.getD (String.intercalate ", " envelope.rcptTos)
    let subject := msg.subjectH.getD "(No Subject)"
    let date_str := msg.dateH.getD (strftimeYmdHMS env.now)
    let (acc, exn) :=
      if msg.root.isMultipart then
        processParts env { body := "", attachments := [], fs := fs } msg.root.walk
      else
        let body :=
          match msg.root.getPayloadDecode with
          | none => ""
          | some payload =>
            if payload.isEmpty then ""
            else
              match bytesDecodeReplace ((msg.root.partData.charset).getD .utf8) payload with
              | .ok s => s
              | .error _ => pyBytesStr payload
        ({ body := body, attachments := [], fs := fs }, none)
    match exn with
    | some e => (.error e, acc.fs, db)
    | none =>
      match save_email_to_db env db sender recipients subject acc.body date_str
          acc.attachments with
      | .error e => (.error e, acc.fs, db)
      | .ok db' => (.ok "250 Message accepted for delivery", acc.fs, db')

/-- Modelled from the spec: the status line the SMTP session layer sends
for the DATA command — the handler's returned reply, or, when an unhandled
exception escapes the handler (the aiosmtpd session loop is not part of the
source under verification), a generic `500` failure status: "Any unhandled
parse exception during DATA handling must still yield a failure status code
to the client". -/
def sessionReply : Except PyExn String → String
  | .ok s => s
  | .error _ => "500 Error"

/-! ## The inbox read path (`inbox()`) -/

/-- One email as displayed by the inbox view. -/
structure DisplayEmail where
  sender : String
  recipients : String
  subject : String
  body : String
  date : String
  attachments : List String
deriving DecidableEq, Repr

/-- One fetched row as rendered by `inbox()`:
`json.loads(attachments_json) if attachments_json else []`; a raising
`json.loads` propagates out of the view (`none`). -/
def inboxRow (r : EmailRow) : Option DisplayEmail :=
  if r.attachments = "" then
    some { sender := r.sender, recipients := r.recipients, subject := r.subject,
           body := r.body, date := r.date, attachments := [] }
  else
    match jsonLoads r.attachments with
    | some l =>
      some { sender := r.sender, recipients := r.recipients, subject := r.subject,
             body := r.body, date := r.date, attachments := l }
    | none => none

/-! ## Characterizations of the walk loop (used in theorem statements) -/

/-- Does every attachment part of the walk list have a payload and a
succeeding file write (so that the loop raises nothing)? -/
def walkWritesOk (env : Env) (ps : List MimePart) : Bool :=
  ps.all (fun p =>
    if p.partData.maintype == "multipart" then true
    else if strContains ((p.partData.contentDisposition).getD "") "attachment" then
      match p.partData.filename with
      | some f => env.fileWriteOk (osPathJoin ATTACHMENTS_DIR f) && p.getPayloadDecode.isSome
      | none => true
    else true)

/-- The attachment references contributed by a walk list, in order. -/
def walkAttachmentRefs (ps : List MimePart) : List String :=
  ps.filterMap (fun p =>
    if p.partData.maintype == "multipart" then none
    else if strContains ((p.partData.contentDisposition).getD "") "attachment" then
      (p.partData.filename).map (fun f => osPathJoin ATTACHMENTS_DIR f)
    else none)

/-- The files written by a walk list, in order. -/
def walkWrites (ps : List MimePart) : List (String × Bytes) :=
  ps.filterMap (fun p =>
    if p.partData.maintype == "multipart" then none
    else if strContains ((p.partData.contentDisposition).getD "") "attachment" then
      match p.partData.filename, p.getPayloadDecode with
      | some f, some b => some (osPathJoin ATTACHMENTS_DIR f, b)
      | _, _ => none
    else none)

/-- The decoded text one non-container, non-attachment leaf appends to
`body` (empty or absent payloads contribute nothing; a raising decode falls
back to `str(payload)`). -/
def decodePayloadBody (charset : Option Charset) (payload : Option Bytes) : String :=
  match payload with
  | none => ""
  | some b =>
    if b.isEmpty then ""
    else
      match bytesDecodeReplace (charset.getD .utf8) b with
      | .ok s => s
      | .error _ => pyBytesStr b

/-- The body text contributed by a walk list, in order. -/
def walkBodyText : List MimePart → String
  | [] => ""
  | p :: ps =>
    (if p.partData.maintype == "multipart" then ""
     else if strContains ((p.partData.contentDisposition).getD "") "attachment" then ""
     else decodePayloadBody (p.partData.charset) p.getPayloadDecode) ++ walkBodyText ps

/-! ## Concrete fixtures for counterexamples and witnesses -/

/-- An environment in which every storage operation succeeds. -/
def envFix : Env :=
  { now := ⟨2026, 1, 2, 3, 4, 5⟩, fileWriteOk := fun _ => true, dbInsertOk := true }

/-- A leaf part whose content-disposition contains "attachment" but which
declares no filename; its payload decodes to "hello". -/
def partAttachNoName : MimePart :=
  .leaf { contentDisposition := some "attachment", maintype := "application",
          filename := none, charset := some .utf8 }
    (some [104, 101, 108, 108, 111])

/-- A multipart message whose only leaf is `partAttachNoName`. -/
def msgAttachNoName : EmailMsg :=
  { fromH := some "a@x", toH := some "b@x", subjectH := some "s", dateH := some "d",
    root := .multi { contentDisposition := none, maintype := "multipart",
                     filename := none, charset := none } [partAttachNoName] }

/-- A non-multipart message declaring an unregistered charset, with payload
bytes 104 105 ("hi"). -/
def msgUnknownCharset : EmailMsg :=
  { fromH := some "a@x", toH := some "b@x", subjectH := some "s", dateH := some "d",
    root := .leaf { contentDisposition := none, maintype := "text",
                    filename := none, charset := some (.unregistered "x-weird") }
      (some [104, 105]) }

/-- A minimal multipart message with a single attachment part. -/
def oneAttachmentMsg (filename : String) (payload : Bytes) : EmailMsg :=
  { fromH := some "a@x", toH := some "b@x", subjectH := some "s", dateH := some "d",
    root := .multi { contentDisposition := none, maintype := "multipart",
                     filename := none, charset := none }
      [.leaf { contentDisposition := some "attachment", maintype := "application",
               filename := some filename, charset := none } (some payload)] }

/-- An attachment leaf part with the given filename and payload. -/
def attachLeaf (filename : String) (payload : Bytes) : MimePart :=
  .leaf { contentDisposition := some "attachment; filename=f", maintype := "application",
          filename := some filename, charset := none } (some payload)

/-- A plain text leaf part with the given UTF-8 payload bytes. -/
def textLeaf (payload : Bytes) : MimePart :=
  .leaf { contentDisposition := none, maintype := "text",
          filename := none, charset := some .utf8 } (some payload)

/-- A multipart message with two attachments around one text part. -/
def twoAttachmentsOneTextMsg : EmailMsg :=
  { fromH := some "a@x", toH := some "b@x", subjectH := some "s", dateH := some "d",
    root := .multi { contentDisposition := none, maintype := "multipart",
                     filename := none, charset := none }
      [attachLeaf "f1.bin" [1, 2], textLeaf [104, 105], attachLeaf "f2.bin" [3]] }

/-- A non-multipart message whose payload is absent. -/
def msgNoPayload : EmailMsg :=
  { fromH := some "a@x", toH := some "b@x", subjectH := some "s", dateH := some "d",
    root := .leaf { contentDisposition := none, maintype := "text",
                    filename := none, charset := none } none }

/-- A non-multipart message with an ASCII-declared payload containing an
undecodable high byte. -/
def msgHighByteAscii : EmailMsg :=
  { fromH := some "a@x", toH := some "b@x", subjectH := some "s", dateH := some "d",
    root := .leaf { contentDisposition := none, maintype := "text",
                    filename := none, charset := some .usAscii } (some [104, 255, 105]) }

/-! # Theorems -/

/-! ### JSON roundtrip lemmas -/

/-- Every `Char` is a Unicode scalar value: below the surrogate range, or
between it and 0x110000. -/
theorem char_toNat_valid (c : Char) :
    c.toNat < 0xD800 ∨ (0xDFFF < c.toNat ∧ c.toNat < 0x110000) := by
  have h := c.valid
  simp only [isValidChar] at h
  rcases h with h | ⟨h1, h2⟩
  · exact Or.inl (by exact_mod_cast h)
  · exact Or.inr ⟨by exact_mod_cast h1, by exact_mod_cast h2⟩

/-- `hexVal` inverts `hexDigitChar` on digit values. -/
theorem hexVal_hexDigitChar (d : Nat) (h : d < 16) :
    hexVal (hexDigitChar d) = some d := by
  interval_cases d <;> decide

/-- `parseHex4` inverts `hex4` on 16-bit values. -/
theorem parseHex4_hex4 (n : Nat) (h : n < 0x10000) (rest : List Char) :
    parseHex4 (hex4 n ++ rest) = some (n, rest) := by
  have h1 : n / 4096 % 16 < 16 := Nat.mod_lt _ (by norm_num)
  have h2 : n / 256 % 16 < 16 := Nat.mod_lt _ (by norm_num)
  have h3 : n / 16 % 16 < 16 := Nat.mod_lt _ (by norm_num)
  have h4 : n % 16 < 16 := Nat.mod_lt _ (by norm_num)
  simp only [hex4, List.cons_append, List.nil_append, parseHex4,
    hexVal_hexDigitChar _ h1, hexVal_hexDigitChar _ h2,
    hexVal_hexDigitChar _ h3, hexVal_hexDigitChar _ h4]
  congr 1
  congr 1
  omega

/-- `parseUEscape` inverts a single `\uXXXX` escape of a non-surrogate
value. -/
theorem parseUEscape_hex4 (n : Nat) (hn : n < 0x10000)
    (hns : n < 0xD800 ∨ 0xE000 ≤ n) (rest : List Char) :
    parseUEscape (hex4 n ++ rest) = some (Char.ofNat n, rest) := by
  have hcond : (decide (n < 0xD800) || decide (0xE000 ≤ n)) = true := by
    simp; omega
  simp [parseUEscape, parseHex4_hex4 _ hn, hcond]

/-- `parseUEscape` inverts a surrogate-pair escape. -/
theorem parseUEscape_pair (hi lo : Nat) (h1 : 0xD800 ≤ hi) (h2 : hi < 0xDC00)
    (h3 : 0xDC00 ≤ lo) (h4 : lo < 0xE000) (rest : List Char) :
    parseUEscape (hex4 hi ++ '\\' :: 'u' :: (hex4 lo ++ rest)) =
      some (Char.ofNat (0x10000 + (hi - 0xD800) * 0x400 + (lo - 0xDC00)), rest) := by
  have hcond1 : (decide (hi < 0xD800) || decide (0xE000 ≤ hi)) = false := by simp; omega
  have hcond3 : (decide (0xDC00 ≤ lo) && decide (lo < 0xE000)) = true := by simp; omega
  simp only [parseUEscape, parseHex4_hex4 _ (by omega : hi < 0x10000), hcond1,
    Bool.false_eq_true, if_false, if_pos h2]
  rw [if_pos (by decide), parseHex4_hex4 _ (by omega : lo < 0x10000)]
  simp only [hcond3, if_true]

/-- The string-body parser accepts a closing quote with any fuel. -/
theorem parseStr_close (fuel : Nat) (rest : List Char) :
    parseJsonStringAux fuel ('"' :: rest) = some ([], rest) := by
  cases fuel <;> simp [parseJsonStringAux]

/-- One short backslash escape consumes two characters. -/
theorem parseStr_step_esc (f : Nat) (input : List Char) (c e : Char)
    (hne : ¬ e = 'u') (hju : jsonUnescape e = some c) :
    parseJsonStringAux (f + 1) ('\\' :: e :: input) =
      (parseJsonStringAux f input).map (fun p => (c :: p.1, p.2)) := by
  simp [parseJsonStringAux, hne, hju]

/-- One unescaped character consumes itself. -/
theorem parseStr_step_plain (f : Nat) (input : List Char) (c : Char)
    (h1 : ¬ c = '"') (h2 : ¬ c = '\\') (h3 : ¬ c.toNat < 0x20) :
    parseJsonStringAux (f + 1) (c :: input) =
      (parseJsonStringAux f input).map (fun p => (c :: p.1, p.2)) := by
  simp [parseJsonStringAux, h1, h2, h3]

/-- A `\u` escape consumes whatever `parseUEscape` consumes. -/
theorem parseStr_step_u (f : Nat) (input r1 : List Char) (c : Char)
    (hu : parseUEscape input = some (c, r1)) :
    parseJsonStringAux (f + 1) ('\\' :: 'u' :: input) =
      (parseJsonStringAux f r1).map (fun p => (c :: p.1, p.2)) := by
  simp [parseJsonStringAux, hu]

/-- The string-body parser inverts `json.dumps` escaping, given enough
fuel. -/
theorem parseJsonStringAux_escape (cs : List Char) :
    ∀ (fuel : Nat), cs.length ≤ fuel → ∀ rest : List Char,
      parseJsonStringAux fuel (jsonEscapeChars cs ++ '"' :: rest) = some (cs, rest) := by
  induction cs with
  | nil =>
    intro fuel _ rest
    rw [show jsonEscapeChars [] ++ '"' :: rest = '"' :: rest from rfl, parseStr_close]
  | cons c cs ih =>
    intro fuel hf rest
    obtain ⟨f, rfl⟩ : ∃ f, fuel = f + 1 := ⟨fuel - 1, by simp at hf; omega⟩
    have hf' : cs.length ≤ f := by simp at hf; omega
    have hrec := ih f hf' rest
    rw [show jsonEscapeChars (c :: cs) = jsonEscapeChar c ++ jsonEscapeChars cs from by
      simp [jsonEscapeChars]]
    by_cases h1 : c = '"'
    · subst h1
      rw [show jsonEscapeChar '"' = ['\\', '"'] from by decide]
      simp only [List.cons_append, List.nil_append, List.append_assoc]
      rw [parseStr_step_esc f _ '"' '"' (by decide) (by decide), hrec]
      rfl
    · by_cases h2 : c = '\\'
      · subst h2
        rw [show jsonEscapeChar '\\' = ['\\', '\\'] from by decide]
        simp only [List.cons_append, List.nil_append, List.append_assoc]
        rw [parseStr_step_esc f _ '\\' '\\' (by decide) (by decide), hrec]
        rfl
      · by_cases h3 : c.toNat = 8
        · have hc : c = Char.ofNat 8 := by rw [← h3, Char.ofNat_toNat]
          subst hc
          rw [show jsonEscapeChar (Char.ofNat 8) = ['\\', 'b'] from by decide]
          simp only [List.cons_append, List.nil_append, List.append_assoc]
          rw [parseStr_step_esc f _ (Char.ofNat 8) 'b' (by decide) (by decide), hrec]
          rfl
        · by_cases h4 : c.toNat = 9
          · have hc : c = Char.ofNat 9 := by rw [← h4, Char.ofNat_toNat]
            subst hc
            rw [show jsonEscapeChar (Char.ofNat 9) = ['\\', 't'] from by decide]
            simp only [List.cons_append, List.nil_append, List.append_assoc]
            rw [parseStr_step_esc f _ (Char.ofNat 9) 't' (by decide) (by decide), hrec]
            rfl
          · by_cases h5 : c.toNat = 10
            · have hc : c = Char.ofNat 10 := by rw [← h5, Char.ofNat_toNat]
              subst hc
              rw [show jsonEscapeChar (Char.ofNat 10) = ['\\', 'n'] from by decide]
              simp only [List.cons_append, List.nil_append, List.append_assoc]
              rw [parseStr_step_esc f _ (Char.ofNat 10) 'n' (by decide) (by decide), hrec]
              rfl
            · by_cases h6 : c.toNat = 12
              · have hc : c = Char.ofNat 12 := by rw [← h6, Char.ofNat_toNat]
                subst hc
                rw [show jsonEscapeChar (Char.ofNat 12) = ['\\', 'f'] from by decide]
                simp only [List.cons_append, List.nil_append, List.append_assoc]
                rw [parseStr_step_esc f _ (Char.ofNat 12) 'f' (by decide) (by decide), hrec]
                rfl
              · by_cases h7 : c.toNat = 13
                · have hc : c = Char.ofNat 13 := by rw [← h7, Char.ofNat_toNat]
                  subst hc
                  rw [show jsonEscapeChar (Char.ofNat 13) = ['\\', 'r'] from by decide]
                  simp only [List.cons_append, List.nil_append, List.append_assoc]
                  rw [parseStr_step_esc f _ (Char.ofNat 13) 'r' (by decide) (by decide), hrec]
                  rfl
                · by_cases h8 : 0x20 ≤ c.toNat ∧ c.toNat < 0x7F
                  · have henc : jsonEscapeChar c = [c] := by
                      simp [jsonEscapeChar, h1, h2, h3, h4, h5, h6, h7, h8]
                    rw [henc]
                    simp only [List.cons_append, List.nil_append, List.append_assoc]
                    rw [parseStr_step_plain f _ c h1 h2 (by omega), hrec]
                    rfl
                  · by_cases h9 : c.toNat < 0x10000
                    · have hv := char_toNat_valid c
                      have henc : jsonEscapeChar c = '\\' :: 'u' :: hex4 c.toNat := by
                        simp [jsonEscapeChar, h1, h2, h3, h4, h5, h6, h7, h8, h9]
                      have hu := parseUEscape_hex4 c.toNat h9 (by omega)
                        (jsonEscapeChars cs ++ '"' :: rest)
                      rw [henc]
                      simp only [List.cons_append, List.nil_append, List.append_assoc]
                      rw [parseStr_step_u f _ _ _ hu, hrec]
                      simp only [Option.map_some']
                      rw [Char.ofNat_toNat]
                    · have hv := char_toNat_valid c
                      have hub : c.toNat < 0x110000 := by omega
                      have henc : jsonEscapeChar c =
                          ('\\' :: 'u' :: hex4 (0xD800 + (c.toNat - 0x10000) / 0x400)) ++
                          ('\\' :: 'u' :: hex4 (0xDC00 + (c.toNat - 0x10000) % 0x400)) := by
                        simp [jsonEscapeChar, h1, h2, h3, h4, h5, h6, h7, h8, h9]
                      have hu := parseUEscape_pair (0xD800 + (c.toNat - 0x10000) / 0x400)
                        (0xDC00 + (c.toNat - 0x10000) % 0x400) (by omega) (by omega)
                        (by omega) (by omega) (jsonEscapeChars cs ++ '"' :: rest)
                      rw [henc]
                      simp only [List.cons_append, List.nil_append, List.append_assoc]
                      rw [parseStr_step_u f _ _ _ hu, hrec]
                      simp only [Option.map_some']
                      rw [show 0x10000 +
                          (0xD800 + (c.toNat - 0x10000) / 0x400 - 0xD800) * 0x400 +
                          (0xDC00 + (c.toNat - 0x10000) % 0x400 - 0xDC00) = c.toNat from by
                        have := Nat.div_add_mod (c.toNat - 0x10000) 0x400
                        omega]
                      rw [Char.ofNat_toNat]


/-- Escaping a character never produces the empty list. -/
theorem one_le_length_jsonEscapeChar (c : Char) : 1 ≤ (jsonEscapeChar c).length := by
  unfold jsonEscapeChar
  split_ifs <;> simp [hex4]

/-- Escaping cannot shrink a string. -/
theorem le_length_jsonEscapeChars (cs : List Char) :
    cs.length ≤ (jsonEscapeChars cs).length := by
  induction cs with
  | nil => simp [jsonEscapeChars]
  | cons c cs ih =>
    have h1 := one_le_length_jsonEscapeChar c
    simp only [jsonEscapeChars, List.flatMap_cons, List.length_append, List.length_cons] at ih ⊢
    omega

/-- `skipWs` is the identity when the head is not JSON whitespace. -/
theorem skipWs_not_ws (c : Char) (t : List Char) (h : isJsonWs c = false) :
    skipWs (c :: t) = c :: t := by
  simp [skipWs, h]

/-- `skipWs` drops a whitespace head. -/
theorem skipWs_ws (c : Char) (t : List Char) (h : isJsonWs c = true) :
    skipWs (c :: t) = skipWs t := by
  simp [skipWs, h]

/-- Each encoded array element contributes at least one character. -/
theorem len_le_flatMap_sep (xs : List String) :
    xs.length ≤ (xs.flatMap (fun s => ',' :: ' ' :: jsonEncodeChars s)).length := by
  induction xs with
  | nil => simp
  | cons x xs ih =>
    simp only [List.flatMap_cons, List.length_append, List.length_cons] at ih ⊢
    omega

/-- The element parser inverts the encoded, comma-separated element list up
to the closing bracket. -/
theorem parseJsonElemsAux_encode (xs : List String) :
    ∀ (x : String) (fuel : Nat), xs.length ≤ fuel → ∀ rest : List Char,
      parseJsonElemsAux fuel
        ('"' :: (jsonEscapeChars x.data ++ '"' ::
          (xs.flatMap (fun s => ',' :: ' ' :: jsonEncodeChars s) ++ ']' :: rest))) =
      some (x :: xs, rest) := by
  have hskComma : ∀ t : List Char, skipWs (',' :: t) = ',' :: t :=
    fun t => skipWs_not_ws ',' t (by decide)
  have hskSpace : ∀ t : List Char, skipWs (' ' :: t) = skipWs t :=
    fun t => skipWs_ws ' ' t (by decide)
  have hskQuote : ∀ t : List Char, skipWs ('"' :: t) = '"' :: t :=
    fun t => skipWs_not_ws '"' t (by decide)
  have hskClose : ∀ t : List Char, skipWs (']' :: t) = ']' :: t :=
    fun t => skipWs_not_ws ']' t (by decide)
  induction xs with
  | nil =>
    intro x fuel _ rest
    simp only [List.flatMap_nil, List.nil_append]
    cases fuel <;>
    · simp only [parseJsonElemsAux]
      rw [parseJsonStringAux_escape x.data]
      · simp [hskClose]
      · have := le_length_jsonEscapeChars x.data
        simp only [List.length_append, List.length_cons]
        omega
  | cons y ys ih =>
    intro x fuel hfl rest
    obtain ⟨f, rfl⟩ : ∃ f, fuel = f + 1 := ⟨fuel - 1, by simp at hfl; omega⟩
    have hf' : ys.length ≤ f := by simp at hfl; omega
    simp only [List.flatMap_cons]
    rw [show (',' :: ' ' :: jsonEncodeChars y ++
        ys.flatMap (fun s => ',' :: ' ' :: jsonEncodeChars s)) ++ ']' :: rest =
        ',' :: ' ' :: ('"' :: (jsonEscapeChars y.data ++ '"' ::
          (ys.flatMap (fun s => ',' :: ' ' :: jsonEncodeChars s) ++ ']' :: rest))) from by
      simp [jsonEncodeChars]]
    have hrec := ih y f hf' rest
    simp only [parseJsonElemsAux]
    rw [parseJsonStringAux_escape x.data]
    · simp [hskComma, hskSpace, hskQuote, hrec]
    · have := le_length_jsonEscapeChars x.data
      simp only [List.length_append, List.length_cons]
      omega

/-- `json.loads` recovers exactly the list serialized by `json.dumps`. -/
theorem jsonLoads_jsonDumps (l : List String) : jsonLoads (jsonDumps l) = some l := by
  cases l with
  | nil => rfl
  | cons x xs =>
    have hskOpen : ∀ t : List Char, skipWs ('[' :: t) = '[' :: t :=
      fun t => skipWs_not_ws '[' t (by decide)
    have hskQuote : ∀ t : List Char, skipWs ('"' :: t) = '"' :: t :=
      fun t => skipWs_not_ws '"' t (by decide)
    have hdata : (jsonDumps (x :: xs)).data =
        '[' :: ('"' :: (jsonEscapeChars x.data ++ '"' ::
          (xs.flatMap (fun s => ',' :: ' ' :: jsonEncodeChars s) ++ ']' :: []))) := by
      simp [jsonDumps, jsonArrayBody, jsonEncodeChars]
    simp only [jsonLoads, hdata, hskOpen, hskQuote]
    simp only [reduceIte]
    rw [parseJsonElemsAux_encode xs x]
    · simp [skipWs]
    · have h1 := len_le_flatMap_sep xs
      simp only [List.length_append, List.length_cons] at h1 ⊢
      omega



/-! ### Walk-loop lemmas -/

/-- A multipart container part is skipped. -/
theorem processPart_container (env : Env) (acc : WalkAcc) (p : MimePart)
    (hc : (p.partData.maintype == "multipart") = true) :
    processPart env acc p = .ok acc := by
  simp [processPart, hc]

/-- An attachment-disposition part without a filename is skipped. -/
theorem processPart_attach_skip (env : Env) (acc : WalkAcc) (p : MimePart)
    (hc : (p.partData.maintype == "multipart") = false)
    (hd : strContains ((p.partData.contentDisposition).getD "") "attachment" = true)
    (hf : p.partData.filename = none) :
    processPart env acc p = .ok acc := by
  simp [processPart, hc, hd, hf]

/-- An attachment-disposition part with a filename writes its payload and
appends the storage path. -/
theorem processPart_attach (env : Env) (acc : WalkAcc) (p : MimePart) (f : String) (b : Bytes)
    (hc : (p.partData.maintype == "multipart") = false)
    (hd : strContains ((p.partData.contentDisposition).getD "") "attachment" = true)
    (hf : p.partData.filename = some f)
    (hw : env.fileWriteOk (osPathJoin ATTACHMENTS_DIR f) = true)
    (hb : p.getPayloadDecode = some b) :
    processPart env acc p =
      .ok { body := acc.body,
            attachments := acc.attachments ++ [osPathJoin ATTACHMENTS_DIR f],
            fs := fsWrite acc.fs (osPathJoin ATTACHMENTS_DIR f) b } := by
  simp [processPart, hc, hd, hf, hw, hb]

/-- A non-attachment leaf appends its decoded payload text to the body. -/
theorem processPart_body (env : Env) (acc : WalkAcc) (p : MimePart)
    (hc : (p.partData.maintype == "multipart") = false)
    (hd : strContains ((p.partData.contentDisposition).getD "") "attachment" = false) :
    processPart env acc p =
      .ok { acc with
            body := acc.body ++ decodePayloadBody (p.partData.charset) p.getPayloadDecode } := by
  simp only [processPart, hc, hd, if_false, Bool.false_eq_true, decodePayloadBody]
  cases hpd : p.getPayloadDecode with
  | none => simp
  | some payload =>
    by_cases hemp : payload.isEmpty
    · simp [hemp]
    · cases hdec : bytesDecodeReplace ((p.partData.charset).getD .utf8) payload <;>
        simp [hemp, hdec]

/-- When every attachment part has a payload and a succeeding write, the
walk loop raises nothing and produces exactly the characterized body text,
attachment references and file writes. -/
theorem processParts_ok (env : Env) (ps : List MimePart) :
    ∀ acc : WalkAcc, walkWritesOk env ps = true →
      processParts env acc ps =
        ({ body := acc.body ++ walkBodyText ps,
           attachments := acc.attachments ++ walkAttachmentRefs ps,
           fs := (walkWrites ps).reverse ++ acc.fs }, none) := by
  induction ps with
  | nil =>
    intro acc _
    simp [processParts, walkBodyText, walkAttachmentRefs, walkWrites]
  | cons p ps ih =>
    intro acc hok
    simp only [walkWritesOk, List.all_cons, Bool.and_eq_true] at hok
    obtain ⟨hp, hps⟩ := hok
    have hps' : walkWritesOk env ps = true := hps
    by_cases hc : (p.partData.maintype == "multipart") = true
    · have hcp : p.partData.maintype = "multipart" := by simpa using hc
      rw [processParts, processPart_container env acc p hc]
      simp [walkBodyText, walkAttachmentRefs, walkWrites, hc, hcp, ih, hps',
        List.filterMap_cons]
    · have hc' : (p.partData.maintype == "multipart") = false := by
        simp only [Bool.not_eq_true] at hc
        exact hc
      by_cases hd : strContains ((p.partData.contentDisposition).getD "") "attachment" = true
      · cases hf : p.partData.filename with
        | none =>
          have hcp : ¬ p.partData.maintype = "multipart" := by simpa using hc
          rw [processParts, processPart_attach_skip env acc p hc' hd hf]
          simp [walkBodyText, walkAttachmentRefs, walkWrites, hc', hd, hf, hcp, ih, hps',
            List.filterMap_cons]
        | some f =>
          simp only [hc', hd, hf, Bool.false_eq_true, if_false, if_true,
            Bool.and_eq_true] at hp
          obtain ⟨hw, hsome⟩ := hp
          obtain ⟨b, hb⟩ := Option.isSome_iff_exists.mp hsome
          have hcp : ¬ p.partData.maintype = "multipart" := by simpa using hc
          rw [processParts, processPart_attach env acc p f b hc' hd hf hw hb]
          simp [walkBodyText, walkAttachmentRefs, walkWrites, hc', hd, hf, hb, hcp, fsWrite,
            List.reverse_cons, List.append_assoc, ih, hps', List.filterMap_cons]
      · have hd' : strContains ((p.partData.contentDisposition).getD "") "attachment" = false := by
          simp only [Bool.not_eq_true] at hd
          exact hd
        have hcp : ¬ p.partData.maintype = "multipart" := by simpa using hc
        rw [processParts, processPart_body env acc p hc' hd']
        simp [walkBodyText, walkAttachmentRefs, walkWrites, hc', hd', hcp,
          String.append_assoc, ih, hps', List.filterMap_cons]



/-! ### Record store lemmas -/

/-- Inserting a row whose id is smaller than everything in a
descending-sorted list lands at the end. -/
theorem insertDescById_small (r : EmailRow) (l : List EmailRow)
    (h : ∀ x ∈ l, r.id < x.id) : insertDescById r l = l ++ [r] := by
  induction l with
  | nil => rfl
  | cons x xs ih =>
    have hx : r.id < x.id := h x (by simp)
    rw [insertDescById, if_neg (by omega), ih (fun y hy => h y (by simp [hy]))]
    rfl

/-- On rows stored in ascending id order, `ORDER BY id DESC` returns
exactly the reverse of insertion order. -/
theorem listAll_eq_reverse (rows : List EmailRow)
    (h : rows.Pairwise (fun a b => a.id < b.id)) :
    rows.foldr insertDescById [] = rows.reverse := by
  induction rows with
  | nil => rfl
  | cons r rest ih =>
    obtain ⟨hhead, htail⟩ := List.pairwise_cons.mp h
    rw [List.foldr_cons, ih htail,
      insertDescById_small r rest.reverse (fun x hx => hhead x (List.mem_reverse.mp hx))]
    simp

/-! ### Session handler master lemmas -/

/-- `handle_DATA` on a parsed multipart message with succeeding storage:
the reply is 250 and the row and files are exactly the walk
characterization. -/
theorem handle_DATA_multipart (env : Env) (envl : Envelope) (fs : FileSys) (db : EmailDb)
    (msg : EmailMsg) (h : envl.content = .parsed msg) (hm : msg.root.isMultipart = true)
    (hok : walkWritesOk env msg.root.walk = true) (hdb : env.dbInsertOk = true) :
    handle_DATA env envl fs db =
      (.ok "250 Message accepted for delivery",
       (walkWrites msg.root.walk).reverse ++ fs,
       { nextId := db.nextId + 1,
         rows := db.rows ++ [{
           id := db.nextId,
           sender := msg.fromH.getD envl.mailFrom,
           recipients := msg.toH.getD (String.intercalate ", " envl.rcptTos),
           subject := msg.subjectH.getD "(No Subject)",
           body := walkBodyText msg.root.walk,
           date := msg.dateH.getD (strftimeYmdHMS env.now),
           attachments := jsonDumps (walkAttachmentRefs msg.root.walk) }] }) := by
  obtain ⟨mf, rt, ct⟩ := envl
  simp only at h
  subst h
  simp [handle_DATA, hm, processParts_ok env msg.root.walk _ hok, save_email_to_db, hdb]

/-- `handle_DATA` on a parsed non-multipart message with a succeeding
insert: the reply is 250, no file is written, and the row's body is the
decoded single payload. -/
theorem handle_DATA_single (env : Env) (envl : Envelope) (fs : FileSys) (db : EmailDb)
    (msg : EmailMsg) (h : envl.content = .parsed msg) (hm : msg.root.isMultipart = false)
    (hdb : env.dbInsertOk = true) :
    handle_DATA env envl fs db =
      (.ok "250 Message accepted for delivery", fs,
       { nextId := db.nextId + 1,
         rows := db.rows ++ [{
           id := db.nextId,
           sender := msg.fromH.getD envl.mailFrom,
           recipients := msg.toH.getD (String.intercalate ", " envl.rcptTos),
           subject := msg.subjectH.getD "(No Subject)",
           body := decodePayloadBody (msg.root.partData.charset) msg.root.getPayloadDecode,
           date := msg.dateH.getD (strftimeYmdHMS env.now),
           attachments := jsonDumps [] }] }) := by
  obtain ⟨mf, rt, ct⟩ := envl
  simp only at h
  subst h
  simp only [handle_DATA, hm, Bool.false_eq_true, if_false, save_email_to_db, hdb, if_true,
    decodePayloadBody]



/-! ### Inversion of a 250 reply -/

/-- If `handle_DATA` returned the 250 acceptance reply, the insert
succeeded and exactly one row was appended, carrying the header values
with their documented defaults. -/
theorem handle_DATA_ok_inv (env : Env) (envl : Envelope) (fs : FileSys) (db : EmailDb)
    (msg : EmailMsg) (h : envl.content = .parsed msg)
    (hacc : (handle_DATA env envl fs db).1 = .ok "250 Message accepted for delivery") :
    env.dbInsertOk = true ∧
    ∃ body atts,
      (handle_DATA env envl fs db).2.2 =
        { nextId := db.nextId + 1,
          rows := db.rows ++ [{
            id := db.nextId,
            sender := msg.fromH.getD envl.mailFrom,
            recipients := msg.toH.getD (String.intercalate ", " envl.rcptTos),
            subject := msg.subjectH.getD "(No Subject)",
            body := body,
            date := msg.dateH.getD (strftimeYmdHMS env.now),
            attachments := jsonDumps atts }] } := by
  obtain ⟨mf, rt, ct⟩ := envl
  simp only at h
  subst h
  by_cases hm : msg.root.isMultipart = true
  · rcases hpp : processParts env ⟨"", [], fs⟩ msg.root.walk with ⟨acc, exn⟩
    cases exn with
    | some e =>
      simp [handle_DATA, hm, hpp] at hacc
    | none =>
      cases hdbok : env.dbInsertOk with
      | false =>
        simp [handle_DATA, hm, hpp, save_email_to_db, hdbok] at hacc
      | true =>
        refine ⟨rfl, acc.body, acc.attachments, ?_⟩
        simp [handle_DATA, hm, hpp, save_email_to_db, hdbok]
  · have hm' : msg.root.isMultipart = false := by
      simpa using hm
    cases hdbok : env.dbInsertOk with
    | false =>
      simp [handle_DATA, hm', save_email_to_db, hdbok] at hacc
    | true =>
      refine ⟨rfl, decodePayloadBody (msg.root.partData.charset) msg.root.getPayloadDecode,
        [], ?_⟩
      have := handle_DATA_single env ⟨mf, rt, .parsed msg⟩ fs db msg rfl hm' hdbok
      rw [this]

/-! ### Claim theorems -/

/-- C1: a DATA payload whose raw bytes cannot be parsed as a structured
message makes `handle_DATA` reply `550 Error` and persist nothing: the
filesystem and the database are unchanged, so `listAll`'s result is
unchanged and no attachment file is written. -/
theorem handle_DATA_malformed_rejects (env : Env) (envl : Envelope) (fs : FileSys)
    (db : EmailDb) (h : envl.content = .malformed) :
    (handle_DATA env envl fs db).1 = .ok "550 Error" ∧
    (handle_DATA env envl fs db).2.1 = fs ∧
    (handle_DATA env envl fs db).2.2 = db ∧
    listAll (handle_DATA env envl fs db).2.2 = listAll db := by
  obtain ⟨mf, rt, ct⟩ := envl
  simp only at h
  subst h
  simp [handle_DATA]

/-- Witness for C1 at a concrete malformed envelope. -/
theorem handle_DATA_malformed_rejects_witness :
    (handle_DATA envFix ⟨"e@x", ["r@x"], .malformed⟩ [] init_db).1 = .ok "550 Error" ∧
    (handle_DATA envFix ⟨"e@x", ["r@x"], .malformed⟩ [] init_db).2.1 = [] ∧
    (handle_DATA envFix ⟨"e@x", ["r@x"], .malformed⟩ [] init_db).2.2 = init_db ∧
    listAll (handle_DATA envFix ⟨"e@x", ["r@x"], .malformed⟩ [] init_db).2.2 =
      listAll init_db :=
  handle_DATA_malformed_rejects envFix ⟨"e@x", ["r@x"], .malformed⟩ [] init_db rfl

/-- C2 counterexample: a leaf part whose content-disposition contains
"attachment" but declares no filename is not treated as body text — its
decoded text is "hello", yet the accepted message's stored body is empty
(and no attachment is stored either). -/
theorem attachment_without_filename_not_body :
    strContains ((partAttachNoName.partData.contentDisposition).getD "") "attachment" = true ∧
    partAttachNoName.partData.filename = none ∧
    decodePayloadBody partAttachNoName.partData.charset partAttachNoName.getPayloadDecode
      = "hello" ∧
    (handle_DATA envFix ⟨"e@x", ["r@x"], .parsed msgAttachNoName⟩ [] init_db).2.2.rows.map
      (fun r => (r.body, r.attachments)) = [("", "[]")] ∧
    (("" : String), ("[]" : String)) ≠ ("hello", "[]") := by
  exact ⟨by decide, by decide, by decide, by decide, by decide⟩

/-- C2 amended: a leaf part is classified by its content-disposition
alone — with "attachment" in the disposition and a filename it is stored
as an attachment; with "attachment" but no filename it contributes
nothing (neither attachment nor body text); without "attachment" in the
disposition its decoded payload text is appended to the body. -/
theorem processPart_classification (env : Env) (acc : WalkAcc) (p : MimePart)
    (hleaf : (p.partData.maintype == "multipart") = false) :
    (strContains ((p.partData.contentDisposition).getD "") "attachment" = true →
      p.partData.filename = none →
      processPart env acc p = .ok acc) ∧
    (∀ f b, strContains ((p.partData.contentDisposition).getD "") "attachment" = true →
      p.partData.filename = some f →
      env.fileWriteOk (osPathJoin ATTACHMENTS_DIR f) = true →
      p.getPayloadDecode = some b →
      processPart env acc p =
        .ok { body := acc.body,
              attachments := acc.attachments ++ [osPathJoin ATTACHMENTS_DIR f],
              fs := fsWrite acc.fs (osPathJoin ATTACHMENTS_DIR f) b }) ∧
    (strContains ((p.partData.contentDisposition).getD "") "attachment" = false →
      processPart env acc p =
        .ok { acc with body := acc.body ++
          decodePayloadBody (p.partData.charset) p.getPayloadDecode }) :=
  ⟨fun hd hf => processPart_attach_skip env acc p hleaf hd hf,
   fun f b hd hf hw hb => processPart_attach env acc p f b hleaf hd hf hw hb,
   fun hd => processPart_body env acc p hleaf hd⟩

/-- Witness for the C2 amended classification at a concrete part. -/
theorem processPart_classification_witness :
    processPart envFix ⟨"", [], []⟩ partAttachNoName = .ok ⟨"", [], []⟩ :=
  (processPart_classification envFix ⟨"", [], []⟩ partAttachNoName (by decide)).1
    (by decide) (by decide)

/-- C3 counterexample: under a declared charset whose decode call raises
(an unregistered codec name), the stored body is `str(payload)`
(`"b'hi'"`), not the UTF-8 lossy decode of the payload (`"hi"`). -/
theorem unknown_charset_fallback_not_utf8 :
    bytesDecodeReplace .utf8 [104, 105] = .ok "hi" ∧
    (handle_DATA envFix ⟨"e@x", ["r@x"], .parsed msgUnknownCharset⟩ [] init_db).2.2.rows.map
      (fun r => r.body) = ["b'hi'"] ∧
    ("b'hi'" : String) ≠ "hi" := by
  exact ⟨rfl, by decide, by decide⟩

/-- C3 amended: a non-multipart payload is decoded with the declared
charset under `errors="replace"` (UTF-8 when no charset is declared), a
raising decode call falls back to `str(payload)`, and the message is
accepted either way; in particular undecodable high bytes under an ASCII
charset end up as replacement characters in the stored body. -/
theorem single_part_body_decode (env : Env) (envl : Envelope) (fs : FileSys) (db : EmailDb)
    (msg : EmailMsg) (h : envl.content = .parsed msg) (hnm : msg.root.isMultipart = false)
    (hdb : env.dbInsertOk = true) :
    (∃ r, handle_DATA env envl fs db =
        (.ok "250 Message accepted for delivery", fs, ⟨db.nextId + 1, db.rows ++ [r]⟩) ∧
      r.body = decodePayloadBody (msg.root.partData.charset) msg.root.getPayloadDecode) ∧
    (∀ b : Bytes, (∃ x ∈ b, 0x80 ≤ x) →
      replacementChar ∈ (decodePayloadBody (some .usAscii) (some b)).data) := by
  constructor
  · exact ⟨_, handle_DATA_single env envl fs db msg h hnm hdb, rfl⟩
  · rintro b ⟨x, hxb, hx⟩
    have hne : b.isEmpty = false := by
      cases b with
      | nil => simp at hxb
      | cons y ys => rfl
    have hd : decodePayloadBody (some .usAscii) (some b) = ⟨asciiDecodeReplace b⟩ := by
      simp [decodePayloadBody, hne, bytesDecodeReplace]
    rw [hd]
    show replacementChar ∈ asciiDecodeReplace b
    rw [asciiDecodeReplace]
    exact List.mem_map.mpr ⟨x, hxb, by rw [if_neg (by omega)]⟩

/-- Witness for the C3 amended theorem: a concrete ASCII-declared message
with a high byte is accepted and stores a replacement marker. -/
theorem single_part_body_decode_witness :
    (∃ r, handle_DATA envFix ⟨"e@x", ["r@x"], .parsed msgHighByteAscii⟩ [] init_db =
        (.ok "250 Message accepted for delivery", [],
          ⟨init_db.nextId + 1, init_db.rows ++ [r]⟩) ∧
      r.body = decodePayloadBody (msgHighByteAscii.root.partData.charset)
        msgHighByteAscii.root.getPayloadDecode) ∧
    replacementChar ∈ (decodePayloadBody (some .usAscii) (some [104, 255, 105])).data := by
  have h := single_part_body_decode envFix ⟨"e@x", ["r@x"], .parsed msgHighByteAscii⟩ []
    init_db msgHighByteAscii rfl (by decide) rfl
  exact ⟨h.1, h.2 [104, 255, 105] ⟨255, by decide, by decide⟩⟩

/-- C4: under the store invariant, a successful append assigns an id
strictly greater than every stored id, preserves the invariant, and the
new record is immediately visible at the head of `listAll`, which returns
rows newest-first (descending by id). -/
theorem append_monotone_listAll_desc (env : Env) (db : EmailDb)
    (sender recipients subject body date_str : String) (atts : List String)
    (hwf : dbWF db) (hok : env.dbInsertOk = true) :
    ∃ db' r, save_email_to_db env db sender recipients subject body date_str atts = .ok db' ∧
      db'.rows = db.rows ++ [r] ∧
      r.id = db.nextId ∧
      (∀ r' ∈ db.rows, r'.id < r.id) ∧
      dbWF db' ∧
      listAll db' = r :: listAll db ∧
      r ∈ listAll db' := by
  obtain ⟨hpw, hbound⟩ := hwf
  refine ⟨⟨db.nextId + 1,
      db.rows ++ [⟨db.nextId, sender, recipients, subject, body, date_str, jsonDumps atts⟩]⟩,
    ⟨db.nextId, sender, recipients, subject, body, date_str, jsonDumps atts⟩,
    ?_, rfl, rfl, ?_, ?_, ?_, ?_⟩
  · rw [save_email_to_db, if_pos hok]
  · exact fun r' hr' => hbound r' hr'
  · constructor
    · rw [List.pairwise_append]
      exact ⟨hpw, List.pairwise_singleton _ _,
        fun a ha b hb => by simp at hb; rw [hb]; exact hbound a ha⟩
    · intro r hr
      dsimp only at hr ⊢
      rcases List.mem_append.mp hr with hr | hr
      · have := hbound r hr; omega
      · simp at hr; rw [hr]; dsimp only; omega
  · have hpw' : (db.rows ++
        [(⟨db.nextId, sender, recipients, subject, body, date_str,
          jsonDumps atts⟩ : EmailRow)]).Pairwise (fun a b => a.id < b.id) := by
      rw [List.pairwise_append]
      exact ⟨hpw, List.pairwise_singleton _ _,
        fun a ha b hb => by simp at hb; rw [hb]; exact hbound a ha⟩
    show (db.rows ++ [_]).foldr insertDescById [] = _ :: db.rows.foldr insertDescById []
    rw [listAll_eq_reverse _ hpw', listAll_eq_reverse _ hpw]
    simp
  · have hpw' : (db.rows ++
        [(⟨db.nextId, sender, recipients, subject, body, date_str,
          jsonDumps atts⟩ : EmailRow)]).Pairwise (fun a b => a.id < b.id) := by
      rw [List.pairwise_append]
      exact ⟨hpw, List.pairwise_singleton _ _,
        fun a ha b hb => by simp at hb; rw [hb]; exact hbound a ha⟩
    have hla : listAll ⟨db.nextId + 1, db.rows ++
        [(⟨db.nextId, sender, recipients, subject, body, date_str,
          jsonDumps atts⟩ : EmailRow)]⟩ =
        (⟨db.nextId, sender, recipients, subject, body, date_str,
          jsonDumps atts⟩ : EmailRow) :: listAll db := by
      show (db.rows ++ [_]).foldr insertDescById [] = _ :: db.rows.foldr insertDescById []
      rw [listAll_eq_reverse _ hpw', listAll_eq_reverse _ hpw]
      simp
    rw [hla]
    exact List.mem_cons_self _ _

/-- Witness for C4 at the freshly initialized store. -/
theorem append_monotone_listAll_desc_witness :
    ∃ db' r, save_email_to_db envFix init_db "s" "r" "j" "b" "d" [] = .ok db' ∧
      db'.rows = init_db.rows ++ [r] ∧
      r.id = init_db.nextId ∧
      (∀ r' ∈ init_db.rows, r'.id < r.id) ∧
      dbWF db' ∧
      listAll db' = r :: listAll init_db ∧
      r ∈ listAll db' :=
  append_monotone_listAll_desc envFix init_db "s" "r" "j" "b" "d" []
    ⟨List.Pairwise.nil, by simp [init_db]⟩ rfl

/-- C8: for every accepted message, independently of each other, an
absent Subject header persists the sentinel "(No Subject)" and an absent
Date header persists the current local time formatted with
`time.strftime("%Y-%m-%d %H:%M:%S")`. -/
theorem subject_date_defaults (env : Env) (envl : Envelope) (fs : FileSys) (db : EmailDb)
    (msg : EmailMsg) (h : envl.content = .parsed msg)
    (hacc : (handle_DATA env envl fs db).1 = .ok "250 Message accepted for delivery") :
    ∃ r, (handle_DATA env envl fs db).2.2.rows = db.rows ++ [r] ∧
      (msg.subjectH = none → r.subject = "(No Subject)") ∧
      (msg.dateH = none → r.date = strftimeYmdHMS env.now) := by
  obtain ⟨_, body, atts, hdb'⟩ := handle_DATA_ok_inv env envl fs db msg h hacc
  rw [hdb']
  exact ⟨_, rfl, fun hsub => by simp [hsub], fun hdate => by simp [hdate]⟩

/-- Witness for C8: a concrete message without Subject and Date headers,
with both conditionals discharged. -/
theorem subject_date_defaults_witness :
    ∃ r, (handle_DATA envFix ⟨"e@x", ["r@x"],
        .parsed { fromH := some "a@x", toH := some "b@x", subjectH := none, dateH := none,
                  root := .leaf { contentDisposition := none, maintype := "text",
                                  filename := none, charset := none } none }⟩
        [] init_db).2.2.rows = init_db.rows ++ [r] ∧
      r.subject = "(No Subject)" ∧ r.date = strftimeYmdHMS envFix.now :=
  match subject_date_defaults envFix ⟨"e@x", ["r@x"],
      .parsed { fromH := some "a@x", toH := some "b@x", subjectH := none, dateH := none,
                root := .leaf { contentDisposition := none, maintype := "text",
                                filename := none, charset := none } none }⟩
      [] init_db _ rfl rfl with
  | ⟨r, hrows, hsub, hdate⟩ => ⟨r, hrows, hsub rfl, hdate rfl⟩

/-- C9: an absent or empty decoded payload contributes nothing and causes
no error: a non-multipart message without a decodable payload is accepted
with empty body and empty attachment list, and a leaf body part with an
absent or empty payload leaves the walk state unchanged. -/
theorem empty_payload_empty_body (env : Env) (envl : Envelope) (fs : FileSys) (db : EmailDb)
    (msg : EmailMsg) (h : envl.content = .parsed msg) (hnm : msg.root.isMultipart = false)
    (hempty : msg.root.getPayloadDecode = none ∨ msg.root.getPayloadDecode = some [])
    (hdb : env.dbInsertOk = true) :
    (∃ r, handle_DATA env envl fs db =
        (.ok "250 Message accepted for delivery", fs, ⟨db.nextId + 1, db.rows ++ [r]⟩) ∧
      r.body = "" ∧ r.attachments = "[]") ∧
    (∀ (acc : WalkAcc) (p : MimePart), (p.partData.maintype == "multipart") = false →
      strContains ((p.partData.contentDisposition).getD "") "attachment" = false →
      (p.getPayloadDecode = none ∨ p.getPayloadDecode = some []) →
      processPart env acc p = .ok acc) := by
  constructor
  · refine ⟨_, handle_DATA_single env envl fs db msg h hnm hdb, ?_, ?_⟩
    · rcases hempty with he | he <;> simp [decodePayloadBody, he]
    · rfl
  · intro acc p hcp hd hemp
    rw [processPart_body env acc p hcp hd]
    rcases hemp with he | he <;> simp [decodePayloadBody, he]

/-- Witness for C9 at a concrete payload-less message. -/
theorem empty_payload_empty_body_witness :
    (∃ r, handle_DATA envFix ⟨"e@x", ["r@x"], .parsed msgNoPayload⟩ [] init_db =
        (.ok "250 Message accepted for delivery", [],
          ⟨init_db.nextId + 1, init_db.rows ++ [r]⟩) ∧
      r.body = "" ∧ r.attachments = "[]") ∧
    (∀ (acc : WalkAcc) (p : MimePart), (p.partData.maintype == "multipart") = false →
      strContains ((p.partData.contentDisposition).getD "") "attachment" = false →
      (p.getPayloadDecode = none ∨ p.getPayloadDecode = some []) →
      processPart envFix acc p = .ok acc) :=
  empty_payload_empty_body envFix ⟨"e@x", ["r@x"], .parsed msgNoPayload⟩ [] init_db
    msgNoPayload rfl (by decide) (Or.inl rfl) rfl

/-- C10: the attachments column round-trips — the ordered path list
serialized with `json.dumps` at append time is recovered exactly by the
inbox view's `json.loads`, for every list including the empty one. -/
theorem attachments_column_roundtrip (env : Env) (db : EmailDb)
    (sender recipients subject body date_str : String) (atts : List String)
    (hok : env.dbInsertOk = true) :
    ∃ db' r, save_email_to_db env db sender recipients subject body date_str atts = .ok db' ∧
      db'.rows = db.rows ++ [r] ∧
      r.attachments = jsonDumps atts ∧
      inboxRow r = some { sender := sender, recipients := recipients, subject := subject,
                          body := body, date := date_str, attachments := atts } := by
  refine ⟨⟨db.nextId + 1,
      db.rows ++ [⟨db.nextId, sender, recipients, subject, body, date_str, jsonDumps atts⟩]⟩,
    ⟨db.nextId, sender, recipients, subject, body, date_str, jsonDumps atts⟩,
    ?_, rfl, rfl, ?_⟩
  · rw [save_email_to_db, if_pos hok]
  · have hne : jsonDumps atts ≠ "" := by
      intro hcontra
      have hdat : (jsonDumps atts).data = [] := by rw [hcontra]
      simp [jsonDumps] at hdat
    simp [inboxRow, hne, jsonLoads_jsonDumps]

/-- Witness for C10 at a concrete two-path list. -/
theorem attachments_column_roundtrip_witness :
    ∃ db' r, save_email_to_db envFix init_db "s" "r" "j" "b" "d"
        ["attachments/a.bin", "attachments/b.bin"] = .ok db' ∧
      db'.rows = init_db.rows ++ [r] ∧
      r.attachments = jsonDumps ["attachments/a.bin", "attachments/b.bin"] ∧
      inboxRow r = some { sender := "s", recipients := "r", subject := "j",
                          body := "b", date := "d",
                          attachments := ["attachments/a.bin", "attachments/b.bin"] } :=
  attachments_column_roundtrip envFix init_db "s" "r" "j" "b" "d"
    ["attachments/a.bin", "attachments/b.bin"] rfl



/-! ### Helpers for the two-attachments-one-text claim -/

/-- The attachment references are exactly those of the attachment-disposed
non-container parts, in walk order. -/
theorem walkAttachmentRefs_eq (ps : List MimePart) :
    walkAttachmentRefs ps =
      ((ps.filter (fun p => !(p.partData.maintype == "multipart"))).filter
        (fun p => strContains ((p.partData.contentDisposition).getD "") "attachment")).filterMap
        (fun p => (p.partData.filename).map (fun f => osPathJoin ATTACHMENTS_DIR f)) := by
  induction ps with
  | nil => rfl
  | cons p ps ih =>
    simp only [walkAttachmentRefs] at ih ⊢
    simp at ih
    by_cases hcp : p.partData.maintype = "multipart"
    · simp [List.filterMap_cons, List.filter_cons, hcp, ih]
    · by_cases hd : strContains ((p.partData.contentDisposition).getD "") "attachment" = true
      · cases hf : p.partData.filename with
        | none =>
          simp [List.filterMap_cons, List.filter_cons, hcp, hd, hf, ih]
        | some f =>
          simp [List.filterMap_cons, List.filter_cons, hcp, hd, hf, ih]
      · have hd' : strContains ((p.partData.contentDisposition).getD "") "attachment"
            = false := by simpa using hd
        simp [List.filterMap_cons, List.filter_cons, hcp, hd', ih]

/-- The body text is the concatenation over the non-attachment
non-container parts, in walk order. -/
theorem walkBodyText_eq (ps : List MimePart) :
    walkBodyText ps =
      (((ps.filter (fun p => !(p.partData.maintype == "multipart"))).filter
        (fun p => !(strContains ((p.partData.contentDisposition).getD "") "attachment"))).map
        (fun p => decodePayloadBody (p.partData.charset) p.getPayloadDecode)).foldr
        (fun a b => a ++ b) "" := by
  induction ps with
  | nil => rfl
  | cons p ps ih =>
    simp at ih
    by_cases hcp : p.partData.maintype = "multipart"
    · simp [walkBodyText, List.filter_cons, hcp, ih]
    · by_cases hd : strContains ((p.partData.contentDisposition).getD "") "attachment" = true
      · simp [walkBodyText, List.filter_cons, hcp, hd, ih]
      · have hd' : strContains ((p.partData.contentDisposition).getD "") "attachment"
            = false := by simpa using hd
        simp [walkBodyText, List.filter_cons, hcp, hd', ih]

/-- Sufficient condition for the loop to raise nothing: every non-container
attachment-disposed part with a filename has a payload and a succeeding
write. -/
theorem walkWritesOk_of (env : Env) (ps : List MimePart)
    (h : ∀ p ∈ ps, (p.partData.maintype == "multipart") = false →
      strContains ((p.partData.contentDisposition).getD "") "attachment" = true →
      ∀ f, p.partData.filename = some f →
        env.fileWriteOk (osPathJoin ATTACHMENTS_DIR f) = true ∧
          p.getPayloadDecode.isSome = true) :
    walkWritesOk env ps = true := by
  rw [walkWritesOk, List.all_eq_true]
  intro p hp
  by_cases hc : (p.partData.maintype == "multipart") = true
  · simp [hc]
  · have hc' : (p.partData.maintype == "multipart") = false := by simpa using hc
    by_cases hd : strContains ((p.partData.contentDisposition).getD "") "attachment" = true
    · cases hf : p.partData.filename with
      | none => simp [hc', hd, hf]
      | some f =>
        obtain ⟨hw, hs⟩ := h p hp hc' hd f hf
        simp [hc', hd, hf, hw, hs]
    · have hd' : strContains ((p.partData.contentDisposition).getD "") "attachment"
          = false := by simpa using hd
      simp [hc', hd']

/-- C5: for every multipart message whose non-container parts comprise
exactly two attachment parts and one text part, the accepted record's
attachment list has length 2 in the order the parts appeared in the tree,
the body is the decoded text of the text part only, and the container
parts contribute nothing. -/
theorem two_attachments_one_text (env : Env) (envl : Envelope) (fs : FileSys) (db : EmailDb)
    (msg : EmailMsg) (a1 a2 t : MimePart) (f1 f2 : String) (b1 b2 : Bytes)
    (h : envl.content = .parsed msg) (hm : msg.root.isMultipart = true)
    (hA : ((msg.root.walk.filter (fun p => !(p.partData.maintype == "multipart"))).filter
        (fun p => strContains ((p.partData.contentDisposition).getD "") "attachment"))
        = [a1, a2])
    (hT : ((msg.root.walk.filter (fun p => !(p.partData.maintype == "multipart"))).filter
        (fun p => !(strContains ((p.partData.contentDisposition).getD "") "attachment")))
        = [t])
    (hf1 : a1.partData.filename = some f1) (hb1 : a1.getPayloadDecode = some b1)
    (hf2 : a2.partData.filename = some f2) (hb2 : a2.getPayloadDecode = some b2)
    (hw1 : env.fileWriteOk (osPathJoin ATTACHMENTS_DIR f1) = true)
    (hw2 : env.fileWriteOk (osPathJoin ATTACHMENTS_DIR f2) = true)
    (hdb : env.dbInsertOk = true) :
    ∃ r, (handle_DATA env envl fs db).1 = .ok "250 Message accepted for delivery" ∧
      (handle_DATA env envl fs db).2.2.rows = db.rows ++ [r] ∧
      r.attachments =
        jsonDumps [osPathJoin ATTACHMENTS_DIR f1, osPathJoin ATTACHMENTS_DIR f2] ∧
      r.body = decodePayloadBody (t.partData.charset) t.getPayloadDecode := by
  have hok : walkWritesOk env msg.root.walk = true := by
    apply walkWritesOk_of
    intro p hp hc hd f hf
    have hpA : p ∈ [a1, a2] := by
      rw [← hA]
      exact List.mem_filter.mpr ⟨List.mem_filter.mpr ⟨hp, by simp [hc]⟩, hd⟩
    simp only [List.mem_cons, List.mem_singleton, List.not_mem_nil, or_false] at hpA
    rcases hpA with rfl | rfl
    · have hfe : f = f1 := by
        rw [hf] at hf1
        exact Option.some.inj hf1
      subst hfe
      exact ⟨hw1, by rw [hb1]; rfl⟩
    · have hfe : f = f2 := by
        rw [hf] at hf2
        exact Option.some.inj hf2
      subst hfe
      exact ⟨hw2, by rw [hb2]; rfl⟩
  obtain ⟨mf, rt, ct⟩ := envl
  simp only at h
  subst h
  rw [handle_DATA_multipart env ⟨mf, rt, .parsed msg⟩ fs db msg rfl hm hok hdb]
  refine ⟨_, rfl, rfl, ?_, ?_⟩
  · dsimp only
    rw [walkAttachmentRefs_eq, hA]
    simp [hf1, hf2, List.filterMap_cons]
  · dsimp only
    rw [walkBodyText_eq, hT]
    simp

/-- Witness for C5 at a concrete two-attachments-one-text message. -/
theorem two_attachments_one_text_witness :
    ∃ r, (handle_DATA envFix ⟨"e@x", ["r@x"], .parsed twoAttachmentsOneTextMsg⟩
        [] init_db).1 = .ok "250 Message accepted for delivery" ∧
      (handle_DATA envFix ⟨"e@x", ["r@x"], .parsed twoAttachmentsOneTextMsg⟩
        [] init_db).2.2.rows = init_db.rows ++ [r] ∧
      r.attachments = jsonDumps [osPathJoin ATTACHMENTS_DIR "f1.bin",
        osPathJoin ATTACHMENTS_DIR "f2.bin"] ∧
      r.body = decodePayloadBody ((textLeaf [104, 105]).partData.charset)
        (textLeaf [104, 105]).getPayloadDecode :=
  two_attachments_one_text envFix ⟨"e@x", ["r@x"], .parsed twoAttachmentsOneTextMsg⟩
    [] init_db twoAttachmentsOneTextMsg
    (attachLeaf "f1.bin" [1, 2]) (attachLeaf "f2.bin" [3]) (textLeaf [104, 105])
    "f1.bin" "f2.bin" [1, 2] [3] rfl rfl rfl rfl
    rfl rfl rfl rfl rfl rfl rfl

/-- C6 (spec-modelled session layer): the session reply for the DATA
command is the 250 acceptance text exactly when a record was appended; an
exception escaping the handler (failed attachment write or insert) is
converted to a rejection status, and a failing insert never yields 250 and
leaves the store unchanged. -/
theorem accept_iff_persisted (env : Env) (envl : Envelope) (fs : FileSys) (db : EmailDb) :
    (sessionReply (handle_DATA env envl fs db).1 = "250 Message accepted for delivery" ↔
      ∃ r, (handle_DATA env envl fs db).2.2.rows = db.rows ++ [r]) ∧
    (∀ e, (handle_DATA env envl fs db).1 = .error e →
      sessionReply (handle_DATA env envl fs db).1 = "500 Error") ∧
    (env.dbInsertOk = false →
      sessionReply (handle_DATA env envl fs db).1 ≠ "250 Message accepted for delivery" ∧
      (handle_DATA env envl fs db).2.2 = db) := by
  have hlen : ∀ r : EmailRow, ¬ db.rows = db.rows ++ [r] := by
    intro r hr
    have := congrArg List.length hr
    simp at this
  obtain ⟨mf, rt, ct⟩ := envl
  cases ct with
  | malformed =>
    have hh : handle_DATA env ⟨mf, rt, .malformed⟩ fs db = (.ok "550 Error", fs, db) := rfl
    rw [hh]
    exact ⟨⟨fun hcontra => absurd hcontra
          (show ¬ "550 Error" = "250 Message accepted for delivery" by decide),
        fun ⟨r, hr⟩ => absurd hr (hlen r)⟩,
      fun e he => by simp at he,
      fun _ => ⟨show ¬ "550 Error" = "250 Message accepted for delivery" by decide, rfl⟩⟩
  | parsed msg =>
    by_cases hm : msg.root.isMultipart = true
    · rcases hpp : processParts env ⟨"", [], fs⟩ msg.root.walk with ⟨acc, exn⟩
      cases exn with
      | some e =>
        have hh : handle_DATA env ⟨mf, rt, .parsed msg⟩ fs db = (.error e, acc.fs, db) := by
          simp [handle_DATA, hm, hpp]
        rw [hh]
        exact ⟨⟨fun hcontra => absurd hcontra
              (show ¬ "500 Error" = "250 Message accepted for delivery" by decide),
            fun ⟨r, hr⟩ => absurd hr (hlen r)⟩,
          fun e' he' => rfl,
          fun _ => ⟨show ¬ "500 Error" = "250 Message accepted for delivery" by decide, rfl⟩⟩
      | none =>
        cases hdbok : env.dbInsertOk with
        | false =>
          have hh : handle_DATA env ⟨mf, rt, .parsed msg⟩ fs db =
              (.error .dbError, acc.fs, db) := by
            simp [handle_DATA, hm, hpp, save_email_to_db, hdbok]
          rw [hh]
          exact ⟨⟨fun hcontra => absurd hcontra
                (show ¬ "500 Error" = "250 Message accepted for delivery" by decide),
              fun ⟨r, hr⟩ => absurd hr (hlen r)⟩,
            fun e' he' => rfl,
            fun _ => ⟨show ¬ "500 Error" = "250 Message accepted for delivery" by decide,
              rfl⟩⟩
        | true =>
          have hh : handle_DATA env ⟨mf, rt, .parsed msg⟩ fs db =
              (.ok "250 Message accepted for delivery", acc.fs,
                ⟨db.nextId + 1, db.rows ++
                  [⟨db.nextId, msg.fromH.getD mf,
                    msg.toH.getD (String.intercalate ", " rt),
                    msg.subjectH.getD "(No Subject)", acc.body,
                    msg.dateH.getD (strftimeYmdHMS env.now),
                    jsonDumps acc.attachments⟩]⟩) := by
            simp [handle_DATA, hm, hpp, save_email_to_db, hdbok]
          rw [hh]
          refine ⟨⟨fun _ => ⟨_, rfl⟩, fun _ => rfl⟩,
            fun e' he' => by simp at he',
            fun hfalse => by simp [hdbok] at hfalse⟩
    · have hm' : msg.root.isMultipart = false := by simpa using hm
      cases hdbok : env.dbInsertOk with
      | false =>
        have hh : handle_DATA env ⟨mf, rt, .parsed msg⟩ fs db =
            (.error .dbError, fs, db) := by
          simp [handle_DATA, hm', save_email_to_db, hdbok]
        rw [hh]
        exact ⟨⟨fun hcontra => absurd hcontra
              (show ¬ "500 Error" = "250 Message accepted for delivery" by decide),
            fun ⟨r, hr⟩ => absurd hr (hlen r)⟩,
          fun e' he' => rfl,
          fun _ => ⟨show ¬ "500 Error" = "250 Message accepted for delivery" by decide, rfl⟩⟩
      | true =>
        have hh := handle_DATA_single env ⟨mf, rt, .parsed msg⟩ fs db msg rfl hm' hdbok
        rw [hh]
        refine ⟨⟨fun _ => ⟨_, rfl⟩, fun _ => rfl⟩,
          fun e' he' => by simp at he',
          fun hfalse => by simp [hdbok] at hfalse⟩

/-- Witness for C6: a concrete accepted message, with the 250 reply
obtained from the persisted-record direction of the equivalence. -/
theorem accept_iff_persisted_witness :
    sessionReply (handle_DATA envFix ⟨"e@x", ["r@x"], .parsed msgNoPayload⟩ [] init_db).1 =
      "250 Message accepted for delivery" :=
  (accept_iff_persisted envFix ⟨"e@x", ["r@x"], .parsed msgNoPayload⟩ [] init_db).1.mpr
    ⟨⟨1, "a@x", "b@x", "s", "", "d", "[]"⟩, by decide⟩

/-- C7: two attachment parts declaring the same filename are written to the
same storage path; the later write silently replaces the earlier file's
bytes, and both messages' records reference that same path. -/
theorem same_filename_overwrites (env : Env) (name : String) (b1 b2 : Bytes)
    (fs : FileSys) (db : EmailDb)
    (hw : env.fileWriteOk (osPathJoin ATTACHMENTS_DIR name) = true)
    (hdb : env.dbInsertOk = true) :
    ∃ fs1 db1 fs2 db2,
      handle_DATA env ⟨"e1", ["r"], .parsed (oneAttachmentMsg name b1)⟩ fs db =
        (.ok "250 Message accepted for delivery", fs1, db1) ∧
      handle_DATA env ⟨"e2", ["r"], .parsed (oneAttachmentMsg name b2)⟩ fs1 db1 =
        (.ok "250 Message accepted for delivery", fs2, db2) ∧
      fsRead fs1 (osPathJoin ATTACHMENTS_DIR name) = some b1 ∧
      fsRead fs2 (osPathJoin ATTACHMENTS_DIR name) = some b2 ∧
      db2.rows.map (fun r => r.attachments) =
        db.rows.map (fun r => r.attachments) ++
          [jsonDumps [osPathJoin ATTACHMENTS_DIR name],
           jsonDumps [osPathJoin ATTACHMENTS_DIR name]] := by
  have hsc : strContains "attachment" "attachment" = true := by decide
  have hok : ∀ b : Bytes, walkWritesOk env (oneAttachmentMsg name b).root.walk = true := by
    intro b
    simp [walkWritesOk, oneAttachmentMsg, MimePart.walk, walkList, MimePart.partData,
      MimePart.getPayloadDecode, hsc, hw]
  have hwr : ∀ b : Bytes, walkWrites (oneAttachmentMsg name b).root.walk =
      [(osPathJoin ATTACHMENTS_DIR name, b)] := by
    intro b
    simp [walkWrites, oneAttachmentMsg, MimePart.walk, walkList, MimePart.partData,
      MimePart.getPayloadDecode, hsc, List.filterMap_cons]
  have har : ∀ b : Bytes, walkAttachmentRefs (oneAttachmentMsg name b).root.walk =
      [osPathJoin ATTACHMENTS_DIR name] := by
    intro b
    simp [walkAttachmentRefs, oneAttachmentMsg, MimePart.walk, walkList, MimePart.partData,
      hsc, List.filterMap_cons]
  have h1 := handle_DATA_multipart env ⟨"e1", ["r"], .parsed (oneAttachmentMsg name b1)⟩
    fs db (oneAttachmentMsg name b1) rfl rfl (hok b1) hdb
  rw [hwr b1, har b1] at h1
  simp only [List.reverse_cons, List.reverse_nil, List.nil_append,
    List.singleton_append] at h1
  have h2 := handle_DATA_multipart env ⟨"e2", ["r"], .parsed (oneAttachmentMsg name b2)⟩
    ((osPathJoin ATTACHMENTS_DIR name, b1) :: fs)
    (handle_DATA env ⟨"e1", ["r"], .parsed (oneAttachmentMsg name b1)⟩ fs db).2.2
    (oneAttachmentMsg name b2) rfl rfl (hok b2) hdb
  rw [hwr b2, har b2, h1] at h2
  simp only [List.reverse_cons, List.reverse_nil, List.nil_append,
    List.singleton_append] at h2
  refine ⟨_, _, _, _, h1, h2, ?_, ?_, ?_⟩
  · simp [fsRead, List.find?]
  · simp [fsRead, List.find?]
  · simp

/-- Witness for C7 at a concrete filename and payloads. -/
theorem same_filename_overwrites_witness :
    ∃ fs1 db1 fs2 db2,
      handle_DATA envFix ⟨"e1", ["r"], .parsed (oneAttachmentMsg "dup.bin" [1])⟩ [] init_db =
        (.ok "250 Message accepted for delivery", fs1, db1) ∧
      handle_DATA envFix ⟨"e2", ["r"], .parsed (oneAttachmentMsg "dup.bin" [2])⟩ fs1 db1 =
        (.ok "250 Message accepted for delivery", fs2, db2) ∧
      fsRead fs1 (osPathJoin ATTACHMENTS_DIR "dup.bin") = some [1] ∧
      fsRead fs2 (osPathJoin ATTACHMENTS_DIR "dup.bin") = some [2] ∧
      db2.rows.map (fun r => r.attachments) =
        init_db.rows.map (fun r => r.attachments) ++
          [jsonDumps [osPathJoin ATTACHMENTS_DIR "dup.bin"],
           jsonDumps [osPathJoin ATTACHMENTS_DIR "dup.bin"]] :=
  same_filename_overwrites envFix "dup.bin" [1] [2] [] init_db rfl rfl


end MailServer
